import Mathlib

/-
Verification development for the AppVault inventory tool (src/AppVault.py).

The Python core is shallowly embedded as executable Lean definitions:

* Python str values are Lean String values; the string helpers used by the
  code (lower, split, splitlines, strip, slicing, substring containment,
  startswith) are modelled by structurally recursive functions on the
  underlying character list.  ASCII case folding is used for lower, which
  covers every string the program compares.  Line splitting is modelled as
  splitting on the newline character: the texts fed to these functions come
  from subprocess calls opened in universal-newlines mode, so every line
  break is a single newline character.
* The registry, the winget process, the clock and the file system are
  external inputs; they enter the embedding as explicit arguments
  (record lists per hive, oracle functions for process outcomes and
  timestamps, an explicit World value for clock plus files).
* Qt signal emissions are modelled as values of event inductives collected
  in an ordered trace list; the cooperative stop flag of a worker is an
  argument giving the value the flag is read to have before item n.
-/

-- ──────────────────────────────────────────────────────────────────
-- Python string primitives
-- ──────────────────────────────────────────────────────────────────

/-- ASCII lower casing of one character, the case folding the program relies on. -/
def lowerChar (c : Char) : Char :=
  if 65 ≤ c.toNat ∧ c.toNat ≤ 90 then Char.ofNat (c.toNat + 32) else c

/-- Python str.lower restricted to ASCII letters. -/
def pyLower (s : String) : String := ⟨s.data.map lowerChar⟩

/-- Is p a prefix of the second list (Python startswith on character lists). -/
def leadsWith (p : List Char) : List Char → Bool
  | [] => p.isEmpty
  | c :: t =>
    match p with
    | [] => true
    | a :: as => a == c && leadsWith as t

/-- Does the second list contain p as a contiguous sublist (Python in on str). -/
def containsSub (p : List Char) : List Char → Bool
  | [] => p.isEmpty
  | c :: t => leadsWith p (c :: t) || containsSub p t

/-- Python substring test: sub in s. -/
def strContains (s sub : String) : Bool := containsSub sub.data s.data

/-- Python s.startswith(p). -/
def strStartsWith (s p : String) : Bool := leadsWith p.data s.data

/-- Worker for pySplit: cur holds the characters of the token being read, reversed. -/
def pySplitAux (cur : List Char) : List Char → List String
  | [] => if cur.isEmpty then [] else [⟨cur.reverse⟩]
  | c :: rest =>
    if c.isWhitespace then
      if cur.isEmpty then pySplitAux [] rest
      else ⟨cur.reverse⟩ :: pySplitAux [] rest
    else pySplitAux (c :: cur) rest

/-- Python s.split() with no argument: split on whitespace runs, no empty tokens. -/
def pySplit (s : String) : List String := pySplitAux [] s.data

/-- Worker for pySplitLines. -/
def pySplitLinesAux (cur : List Char) : List Char → List String
  | [] => [⟨cur.reverse⟩]
  | c :: rest =>
    if c == '\n' then ⟨cur.reverse⟩ :: pySplitLinesAux [] rest
    else pySplitLinesAux (c :: cur) rest

/-- Python s.splitlines() for newline-separated text (universal-newlines input). -/
def pySplitLines (s : String) : List String := pySplitLinesAux [] s.data

/-- Python s.strip(): remove leading and trailing whitespace. -/
def pyStrip (s : String) : String :=
  ⟨((s.data.dropWhile Char.isWhitespace).reverse.dropWhile Char.isWhitespace).reverse⟩

/-- Python slicing s[:n]. -/
def pyTake (s : String) (n : Nat) : String := ⟨s.data.take n⟩

/-- Lexicographic less-or-equal on character lists by code point, the order
Python uses when comparing the string sort keys. -/
def lexLe : List Char → List Char → Bool
  | _ :: _, [] => false
  | [], _ => true
  | x :: s, y :: t => if x.toNat = y.toNat then lexLe s t else decide (x.toNat < y.toNat)

/-- Stable insertion of x into a le-sorted list: x goes before the first
element not le-below it, hence before elements with an equal key. -/
def pyInsertSorted (le : α → α → Bool) (x : α) : List α → List α
  | [] => [x]
  | b :: t => if le x b then x :: b :: t else b :: pyInsertSorted le x t

/-- Python sorted(l, key=...): a stable ascending sort, modelled by stable
insertion sort, which realises the same specification. -/
def pySorted (le : α → α → Bool) (l : List α) : List α :=
  l.foldr (pyInsertSorted le) []

-- ──────────────────────────────────────────────────────────────────
-- Data model: AppRecord (dataclass AppRecord in the source)
-- ──────────────────────────────────────────────────────────────────

/-- One inventory entry; field names and defaults follow the dataclass. -/
structure AppRecord where
  name : String
  publisher : String := ""
  version : String := ""
  uninstall_string : String := ""
  install_location : String := ""
  source : String := ""
  winget_id : String := ""
  winget_status : String := "unknown"
  install_status : String := ""
  install_error : String := ""
deriving DecidableEq, Repr

instance : Inhabited AppRecord := ⟨{ name := "" }⟩

/-- Dictionary model: a JSON object whose values are strings, as produced by
AppRecord.to_dict and consumed by AppRecord.from_dict; keys are looked up
first-match (keys of a parsed JSON object are distinct). -/
def dictLookup (d : List (String × String)) (k : String) : Option String :=
  (d.find? (fun p => p.1 == k)).map (fun p => p.2)

/-- asdict(self): the full field set in declaration order. -/
def AppRecord.to_dict (a : AppRecord) : List (String × String) :=
  [("name", a.name), ("publisher", a.publisher), ("version", a.version),
   ("uninstall_string", a.uninstall_string), ("install_location", a.install_location),
   ("source", a.source), ("winget_id", a.winget_id), ("winget_status", a.winget_status),
   ("install_status", a.install_status), ("install_error", a.install_error)]

/-- AppRecord.from_dict: keep only keys naming dataclass fields, build the
record with the dataclass defaults for omitted fields; a dictionary without
the required name key makes the constructor call raise, modelled as none. -/
def AppRecord.from_dict (d : List (String × String)) : Option AppRecord :=
  match dictLookup d "name" with
  | none => none
  | some nm => some {
      name := nm,
      publisher := (dictLookup d "publisher").getD "",
      version := (dictLookup d "version").getD "",
      uninstall_string := (dictLookup d "uninstall_string").getD "",
      install_location := (dictLookup d "install_location").getD "",
      source := (dictLookup d "source").getD "",
      winget_id := (dictLookup d "winget_id").getD "",
      winget_status := (dictLookup d "winget_status").getD "unknown",
      install_status := (dictLookup d "install_status").getD "",
      install_error := (dictLookup d "install_error").getD "" }

/-- The ten dataclass field names, in declaration order. -/
def appRecordFields : List String :=
  ["name", "publisher", "version", "uninstall_string", "install_location",
   "source", "winget_id", "winget_status", "install_status", "install_error"]

-- ──────────────────────────────────────────────────────────────────
-- Registry scanner (scan_installed_apps and the builtin filter)
-- ──────────────────────────────────────────────────────────────────

/-- Decimal digit test for the kb pattern. -/
def isDigitChar (c : Char) : Bool := 48 ≤ c.toNat && c.toNat ≤ 57

/-- Does the list start with the letters k b followed by at least six digits. -/
def startsKBNum : List Char → Bool
  | k :: b :: rest =>
    k == 'k' && b == 'b' && decide (rest.length ≥ 6) && (rest.take 6).all isDigitChar
  | _ => false

/-- Search semantics of the regular expression kb followed by six or more
digits: some suffix position matches. -/
def containsKBNum : List Char → Bool
  | [] => false
  | c :: rest => startsKBNum (c :: rest) || containsKBNum rest

/-- Search semantics of each entry of WINDOWS_BUILTIN_PATTERNS on the lowered
name.  Every pattern is a literal (escaped dots, pluses and parentheses)
except the kb numeric pattern and the two caret-anchored patterns. -/
def matchesBuiltinPattern (nl : String) : Bool :=
  strContains nl "microsoft.net" ||
  strContains nl "microsoft visual c++" ||
  strContains nl "windows sdk" ||
  containsKBNum nl.data ||
  strContains nl "update for microsoft" ||
  strContains nl "security update" ||
  strContains nl "microsoft.directx" ||
  strContains nl "directx" ||
  strContains nl "windows subsystem" ||
  strStartsWith nl "microsoft windows" ||
  strContains nl "nvidia physx" ||
  strStartsWith nl "intel(r)" ||
  strContains nl "microsoft edge webview" ||
  strContains nl "windows pc health"

/-- EXCLUDE_PUBLISHERS from the source. -/
def EXCLUDE_PUBLISHERS : List String :=
  ["microsoft corporation", "microsoft windows", "windows"]

/-- The allow list allowed_ms inside the builtin filter. -/
def allowedMs : List String :=
  ["microsoft office", "microsoft 365", "visual studio code",
   "microsoft teams", "onedrive", "onenote", "skype"]

/-- Function is_builtin(name, publisher) from the source: name pattern match
first, then the vendor-publisher rule softened by the allow list. -/
def is_builtin (name publisher : String) : Bool :=
  let nl := pyLower name
  matchesBuiltinPattern nl ||
  (EXCLUDE_PUBLISHERS.contains (pyLower publisher) &&
   !(allowedMs.any (fun a => strContains nl a)))

/-- Case-insensitive dedup key of a record: a.name.lower(). -/
def scanKey (a : AppRecord) : String := pyLower a.name

/-- The dedup loop of scan_installed_apps: seen is the set of keys already
emitted, the first occurrence of each key is kept. -/
def dedupFirst : List AppRecord → List String → List AppRecord
  | [], _ => []
  | a :: rest, seen =>
    if seen.contains (scanKey a) then dedupFirst rest seen
    else a :: dedupFirst rest (scanKey a :: seen)

/-- Sort key comparison used by sorted(unique, key=lambda x: x.name.lower()). -/
def scanLe (a b : AppRecord) : Bool := lexLe (scanKey a).data (scanKey b).data

/-- scan_installed_apps as a function of the records gathered from the three
registry locations, in the scan order HKLM x64, HKLM x86, HKCU: concatenate,
dedup by lowered name keeping first occurrences, sort by lowered name. -/
def scan_installed_apps (hklm64 hklm32 hkcu : List AppRecord) : List AppRecord :=
  let apps := hklm64 ++ hklm32 ++ hkcu
  pySorted scanLe (dedupFirst apps [])

-- ──────────────────────────────────────────────────────────────────
-- Winget matcher parsing (parse_winget_id)
-- ──────────────────────────────────────────────────────────────────

/-- Candidate token shape from the source: contains a dot, does not start
with a dash, longer than three characters. -/
def isCandidateTok (p : String) : Bool :=
  p.data.contains '.' && !(strStartsWith p "-") && decide (p.data.length > 3)

/-- Relevance score of a row text: how many words of the lowered query name
occur in it as substrings. -/
def scoreOf (nameWords : List String) (row : String) : Nat :=
  (nameWords.filter (fun w => strContains row w)).length

/-- The inner for loop of parse_winget_id over the tokens of one line: stop
at the first candidate token, score it against the lowered join of the
preceding tokens, as the break statement in the source does. -/
def innerScan (nameWords : List String) (pre : List String) : List String → Option (String × Nat)
  | [] => none
  | p :: rest =>
    if isCandidateTok p then
      some (p, scoreOf nameWords (pyLower (String.intercalate " " pre)))
    else innerScan nameWords (pre ++ [p]) rest

/-- The first candidate one line contributes: none when the line splits into
fewer than two tokens, else the result of the inner scan. -/
def lineCandidate (nameWords : List String) (line : String) : Option (String × Nat) :=
  let parts := pySplit line
  if parts.length < 2 then none else innerScan nameWords [] parts

/-- The update of the running best: replace it on a higher score, or on an
equal score while nothing has been kept yet (the initial empty id). -/
def updateBest (best cand : String × Nat) : String × Nat :=
  if cand.2 > best.2 || (cand.2 == best.2 && best.1 == "") then cand else best

/-- One iteration of the line loop of parse_winget_id. -/
def parseLineStep (nameWords : List String) (best : String × Nat) (line : String) : String × Nat :=
  match lineCandidate nameWords line with
  | none => best
  | some cand => updateBest best cand

/-- Function parse_winget_id(output, name): fold the line loop over the
lines of the stripped output, starting from an empty best id and score 0. -/
def parse_winget_id (output name : String) : String :=
  let lines := pySplitLines (pyStrip output)
  let nameWords := pySplit (pyLower name)
  (lines.foldl (parseLineStep nameWords) ("", 0)).1

/-- The candidates the code actually surveys: the first candidate token of
each line that splits into at least two tokens, with its score. -/
def codeCandidates (output name : String) : List (String × Nat) :=
  (pySplitLines (pyStrip output)).filterMap (lineCandidate (pySplit (pyLower name)))

/-- All candidate tokens of one line with their scores, no first-token cut:
the candidate set named by the specification sentence. -/
def lineCandsAll (nameWords : List String) (pre : List String) : List String → List (String × Nat)
  | [] => []
  | p :: rest =>
    if isCandidateTok p then
      (p, scoreOf nameWords (pyLower (String.intercalate " " pre))) ::
        lineCandsAll nameWords (pre ++ [p]) rest
    else lineCandsAll nameWords (pre ++ [p]) rest

/-- Candidate set described by the claim text: every token of every row that
has the candidate shape, scored against the row text preceding it. -/
def claimCandidates (output name : String) : List (String × Nat) :=
  let nameWords := pySplit (pyLower name)
  (pySplitLines (pyStrip output)).flatMap (fun line => lineCandsAll nameWords [] (pySplit line))

/-- The candidate with the highest score, keeping the first one found on a
tie; none when there is no candidate. -/
def pickBest : List (String × Nat) → Option (String × Nat)
  | [] => none
  | c :: cs =>
    match pickBest cs with
    | none => some c
    | some d => if d.2 > c.2 then some d else some c

/-- The identifier the claim sentence predicts: best of all candidate tokens,
empty when there is none. -/
def claimBest (output name : String) : String :=
  match pickBest (claimCandidates output name) with
  | some c => c.1
  | none => ""

/-- The identifier the code computes, phrased as best-of-candidates over the
candidates the code surveys. -/
def codeBest (output name : String) : String :=
  match pickBest (codeCandidates output name) with
  | some c => c.1
  | none => ""

-- ──────────────────────────────────────────────────────────────────
-- Install error extraction (extract_winget_error)
-- ──────────────────────────────────────────────────────────────────

/-- The fixed failure keyword list of the source. -/
def failureKeywords : List String := ["error", "failed", "no package", "not found", "0x"]

/-- Does a line contain one of the failure keywords case-insensitively. -/
def kwMatch (line : String) : Bool :=
  failureKeywords.any (fun kw => strContains (pyLower line) kw)

/-- Function extract_winget_error(output): first keyword line stripped and
cut to 120 characters, else last line of the stripped output cut to 120,
else the fixed text for all-whitespace output. -/
def extract_winget_error (output : String) : String :=
  match (pySplitLines output).find? kwMatch with
  | some line => pyTake (pyStrip line) 120
  | none =>
    if pyStrip output ≠ "" then pyTake ((pySplitLines (pyStrip output)).getLastD "") 120
    else "Unknown error"

/-- Extraction as the claim sentence words it: the first keyword line
truncated to 120 characters with no stripping, else the last non-empty
line truncated. -/
def claimExtract (output : String) : String :=
  match (pySplitLines output).find? kwMatch with
  | some line => pyTake line 120
  | none => pyTake (((pySplitLines output).filter (fun l => l ≠ "")).getLastD "") 120

-- ──────────────────────────────────────────────────────────────────
-- Export and import codec
-- ──────────────────────────────────────────────────────────────────

/-- APP_VERSION constant of the source. -/
def APP_VERSION : String := "1.0.0"

/-- The JSON document export_template writes: version tag, export timestamp,
and the full field set of each entry.  JSON serialisation of such a document
round-trips, so the document value stands for the written file. -/
structure TemplateDoc where
  appvault_version : String
  exported_at : String
  apps : List (List (String × String))
deriving DecidableEq, Repr

/-- export_template(apps, filepath): the document written to the file; the
timestamp datetime.now().isoformat() is the explicit argument now. -/
def export_template (apps : List AppRecord) (now : String) : TemplateDoc :=
  { appvault_version := APP_VERSION, exported_at := now,
    apps := apps.map AppRecord.to_dict }

/-- What import_template finds at the given path: either the parsed document,
or a raised exception before any entry is built (unreadable file, invalid
JSON text, a top level that is not an object) carrying the exception text.
A document without an apps member is a document with an empty apps list,
as data.get with an empty default makes the two indistinguishable. -/
inductive ImportSource
  | ioError (msg : String)
  | doc (d : TemplateDoc)
deriving DecidableEq

/-- Message of the TypeError raised by the dataclass constructor when the
required name argument is missing. -/
def missingNameMsg : String := "AppRecord missing 1 required positional argument: name"

/-- The per-entry reset performed after a successful parse. -/
def resetInstall (a : AppRecord) : AppRecord :=
  { a with install_status := "", install_error := "" }

/-- The list comprehension building the entries: it stops at the first
dictionary AppRecord.from_dict rejects, failing the whole build. -/
def buildEntries : List (List (String × String)) → Option (List AppRecord)
  | [] => some []
  | d :: rest =>
    match AppRecord.from_dict d with
    | none => none
    | some a =>
      match buildEntries rest with
      | none => none
      | some as => some (a :: as)

/-- import_template(filepath): build every entry with AppRecord.from_dict
(a failure is turned by the except block into an empty list plus the
exception text), then reset the install state of every entry; the error
component is empty exactly on success.  The function is pure: failure
returns a fresh empty list and touches no caller state. -/
def import_template : ImportSource → List AppRecord × String
  | .ioError msg => ([], msg)
  | .doc d =>
    match buildEntries d.apps with
    | some apps => (apps.map resetInstall, "")
    | none => ([], missingNameMsg)

/-- Does an entry dictionary carry the required name key. -/
def entryHasName (d : List (String × String)) : Bool := (dictLookup d "name").isSome

/-- Does parsing the source fail: an exception before entry construction, or
some entry dictionary without a name. -/
def parseFails : ImportSource → Bool
  | .ioError _ => true
  | .doc d => !(d.apps.all entryHasName)

-- ──────────────────────────────────────────────────────────────────
-- Script export (export_ps1) over an explicit world
-- ──────────────────────────────────────────────────────────────────

/-- The ambient state export_ps1 touches: the formatted clock text that
datetime.now().strftime returns, and the files on disk. -/
structure World where
  clockText : String
  files : List (String × String)
deriving DecidableEq

/-- Writing a file: the newest version of a path shadows older ones. -/
def writeFile (w : World) (path text : String) : World :=
  { w with files := (path, text) :: w.files }

/-- Reading a file back. -/
def readFile (w : World) (path : String) : Option String :=
  (w.files.find? (fun p => p.1 == path)).map (fun p => p.2)

/-- Single quote character, kept out of string literals. -/
def squote : String := ⟨[Char.ofNat 39]⟩

/-- The banner rule of the generated script: sixty equals signs. -/
def eqRule : String := ⟨List.replicate 60 (Char.ofNat 61)⟩

/-- The comment line built for one winget-installable entry. -/
def ps1AppComment (a : AppRecord) : String :=
  let c := "# " ++ a.name
  let c := if a.publisher ≠ "" then c ++ "  |  " ++ a.publisher else c
  if a.version ≠ "" then c ++ "  |  v" ++ a.version else c

/-- The three lines appended per winget-installable entry. -/
def ps1WingetBlock (a : AppRecord) : List String :=
  [ps1AppComment a,
   "winget install --id " ++ a.winget_id ++
     " --silent --accept-package-agreements --accept-source-agreements",
   ""]

/-- The lines appended per manual entry. -/
def ps1ManualBlock (a : AppRecord) : List String :=
  ["# " ++ a.name] ++
  (if a.publisher ≠ "" then ["#   Publisher : " ++ a.publisher] else []) ++
  (if a.version ≠ "" then ["#   Version   : " ++ a.version] else []) ++
  [""]

/-- The full line list of the generated script, as built in export_ps1. -/
def ps1Lines (apps : List AppRecord) (now : String) : List String :=
  let winget_apps := apps.filter (fun a => a.winget_id ≠ "")
  let manual_apps := apps.filter (fun a => a.winget_id = "")
  ["# " ++ eqRule,
   "#  AppVault — Auto-generated Install Script",
   "#  Generated : " ++ now,
   "#  Apps      : " ++ toString winget_apps.length ++ " via Winget  |  " ++
     toString manual_apps.length ++ " manual",
   "# " ++ eqRule,
   "",
   "# Requires winget (App Installer) — https://aka.ms/getwinget",
   "",
   "Write-Host " ++ squote ++ "=== AppVault Install Script ===" ++ squote ++ " -ForegroundColor Cyan",
   "Write-Host " ++ squote ++ squote,
   ""] ++
  (if winget_apps ≠ [] then
    ["# ── Winget Installs ─────────────────────────────────────────", ""] ++
      winget_apps.flatMap ps1WingetBlock
   else []) ++
  (if manual_apps ≠ [] then
    ["# ── Manual Installs Required ────────────────────────────────",
     "# The following apps have no Winget package — install manually:",
     ""] ++ manual_apps.flatMap ps1ManualBlock
   else []) ++
  ["Write-Host " ++ squote ++ squote ++ " ",
   "Write-Host " ++ squote ++ "Done! Check output above for any errors." ++ squote ++
     " -ForegroundColor Green"]

/-- The script text: the newline join of the lines. -/
def ps1Text (apps : List AppRecord) (now : String) : String :=
  String.intercalate "\n" (ps1Lines apps now)

/-- export_ps1(apps, filepath): read the clock, write the joined text to the
file, return the winget and manual counts. -/
def export_ps1 (apps : List AppRecord) (filepath : String) (w : World) : (Nat × Nat) × World :=
  let now := w.clockText
  let winget_apps := apps.filter (fun a => a.winget_id ≠ "")
  let manual_apps := apps.filter (fun a => a.winget_id = "")
  ((winget_apps.length, manual_apps.length), writeFile w filepath (ps1Text apps now))

-- ──────────────────────────────────────────────────────────────────
-- Install worker and matcher worker as event-trace generators
-- ──────────────────────────────────────────────────────────────────

/-- Outcome of one subprocess.run winget install invocation: completion with
an exit code and captured streams, the 300 second timeout, or an invocation
exception carrying its message. -/
inductive InstallOutcome
  | completed (code : Int) (out errout : String)
  | timedOut
  | raised (msg : String)
deriving DecidableEq

/-- Signals of InstallWorker, in emission order, as one trace alphabet. -/
inductive IEv
  | app_started (idx : Nat) (nm : String)
  | app_finished (idx : Nat) (status err : String)
  | overall_progress (done total : Nat)
  | log_message (msg : String)
  | all_done
deriving DecidableEq

/-- The events one loop iteration of InstallWorker.run emits for the entry
app at index idx, before the progress signal: the manual short-circuit when
the entry is unmatched, otherwise the invocation with its four outcomes.
ts1 and ts2 are the two timestamp reads of the iteration. -/
def installItemEvents (app : AppRecord) (idx : Nat) (outcome : InstallOutcome)
    (ts1 ts2 : String) : List IEv :=
  if app.winget_status ≠ "found" ∨ app.winget_id = "" then
    [.app_started idx app.name, .app_finished idx "manual" "No Winget package available"]
  else
    [.app_started idx app.name,
     .log_message ("[" ++ ts1 ++ "] Installing: " ++ app.name ++ " (" ++ app.winget_id ++ ")")] ++
    match outcome with
    | .completed code out errout =>
      if code = 0 then
        [.log_message ("[" ++ ts2 ++ "] ✓ Success: " ++ app.name),
         .app_finished idx "success" ""]
      else
        [.log_message ("[" ++ ts2 ++ "] ✗ Failed: " ++ app.name ++ " — " ++
           extract_winget_error (out ++ errout)),
         .app_finished idx "failed" (extract_winget_error (out ++ errout))]
    | .timedOut =>
      [.log_message ("[" ++ ts2 ++ "] ✗ Timeout: " ++ app.name),
       .app_finished idx "failed" "Installation timed out after 5 minutes."]
    | .raised msg => [.app_finished idx "failed" msg]

/-- The loop of InstallWorker.run: stop is the value the cooperative flag is
read to have before item n; installer gives the outcome of invoking winget
on the entry at an index; tsA and tsB give the two timestamp texts of item
n.  Every exit emits the final all_done signal. -/
def installGo (apps : List AppRecord) (installer : Nat → InstallOutcome)
    (tsA tsB : Nat → String) (stop : Nat → Bool) (total : Nat) :
    List Nat → Nat → Nat → List IEv
  | [], _, _ => [.all_done]
  | idx :: rest, n, done =>
    if stop n then [.all_done]
    else
      installItemEvents (apps.getD idx default) idx (installer idx) (tsA n) (tsB n) ++
        (.overall_progress (done + 1) total :: installGo apps installer tsA tsB stop total rest (n + 1) (done + 1))

/-- InstallWorker.run as the trace of emitted signals. -/
def InstallWorker.run (apps : List AppRecord) (indices : List Nat)
    (installer : Nat → InstallOutcome) (tsA tsB : Nat → String) (stop : Nat → Bool) : List IEv :=
  installGo apps installer tsA tsB stop indices.length indices 0 0

/-- Signals of WingetMatcher. -/
inductive MEv
  | progress (cur total : Nat)
  | app_matched (idx : Nat) (wid status : String)
  | finishedSig
deriving DecidableEq

/-- The loop of WingetMatcher.run: entries already found are counted without
a query; search gives the (winget_id, status) the two-stage catalog query
returns for a name. -/
def matcherGo (apps : List AppRecord) (search : String → String × String)
    (stop : Nat → Bool) (total : Nat) : Nat → List Nat → List MEv
  | _, [] => [.finishedSig]
  | n, idx :: rest =>
    if stop n then [.finishedSig]
    else
      let app := apps.getD idx default
      if app.winget_status == "found" then
        .progress (n + 1) total :: matcherGo apps search stop total (n + 1) rest
      else
        .app_matched idx (search app.name).1 (search app.name).2 ::
          .progress (n + 1) total :: matcherGo apps search stop total (n + 1) rest

/-- WingetMatcher.run as the trace of emitted signals. -/
def WingetMatcher.run (apps : List AppRecord) (indices : List Nat)
    (search : String → String × String) (stop : Nat → Bool) : List MEv :=
  matcherGo apps search stop indices.length 0 indices

/-- Indices carried by app_started events, in trace order. -/
def startedIdxs (tr : List IEv) : List Nat :=
  tr.filterMap (fun e => match e with | .app_started i _ => some i | _ => none)

/-- Indices carried by app_matched events, in trace order. -/
def matchedIdxs (tr : List MEv) : List Nat :=
  tr.filterMap (fun e => match e with | .app_matched i _ _ => some i | _ => none)

/-- Number of all_done signals in a trace. -/
def doneCount (tr : List IEv) : Nat :=
  (tr.filterMap (fun e => match e with | .all_done => some 0 | _ => none)).length

/-- Number of final matcher completion signals in a trace. -/
def finCount (tr : List MEv) : Nat :=
  (tr.filterMap (fun e => match e with | .finishedSig => some 0 | _ => none)).length

/-- Number of loop iterations a worker executes on the given remaining index
list when the flag reads stop, starting from iteration n. -/
def stopsAt (stop : Nat → Bool) : Nat → List Nat → Nat
  | _, [] => 0
  | n, _ :: rest => if stop n then 0 else stopsAt stop (n + 1) rest + 1

-- ──────────────────────────────────────────────────────────────────
-- Codec lemmas
-- ──────────────────────────────────────────────────────────────────

/-- Reading back the dictionary asdict produced recovers the record. -/
theorem from_dict_to_dict (a : AppRecord) : AppRecord.from_dict a.to_dict = some a := by
  simp [AppRecord.from_dict, AppRecord.to_dict, dictLookup, List.find?]

/-- Building entries from exported dictionaries succeeds and recovers them. -/
theorem buildEntries_map_to_dict (apps : List AppRecord) :
    buildEntries (apps.map AppRecord.to_dict) = some apps := by
  induction apps with
  | nil => rfl
  | cons a rest ih => simp [buildEntries, from_dict_to_dict, ih]

/-- An entry is rejected exactly when it lacks the name key. -/
theorem from_dict_isSome (d : List (String × String)) :
    (AppRecord.from_dict d).isSome = entryHasName d := by
  unfold AppRecord.from_dict entryHasName
  cases dictLookup d "name" <;> rfl

/-- The whole build succeeds exactly when every entry carries a name. -/
theorem buildEntries_isSome (l : List (List (String × String))) :
    (buildEntries l).isSome = l.all entryHasName := by
  induction l with
  | nil => rfl
  | cons d rest ih =>
    unfold buildEntries
    rcases hd : AppRecord.from_dict d with _ | a
    · have : entryHasName d = false := by rw [← from_dict_isSome, hd]; rfl
      simp [this]
    · have : entryHasName d = true := by rw [← from_dict_isSome, hd]; rfl
      rcases hr : buildEntries rest with _ | as <;>
        simp_all [List.all_cons]

/-- A member without a name fails the whole build. -/
theorem buildEntries_none_of_mem (d : List (String × String))
    (hname : dictLookup d "name" = none) :
    ∀ l, d ∈ l → buildEntries l = none := by
  intro l
  induction l with
  | nil => intro h; cases h
  | cons e rest ih =>
    intro hmem
    unfold buildEntries
    rcases List.mem_cons.mp hmem with heq | hmem2
    · subst heq
      have h0 : AppRecord.from_dict d = none := by
        unfold AppRecord.from_dict
        rw [hname]
      rw [h0]
    · rcases he : AppRecord.from_dict e with _ | a
      · rfl
      · rw [ih hmem2]

/-- C1.  For every non-empty entry sequence, importing the document produced
by exporting it yields the same entries in the same order, with the same
identity fields (name, publisher, version, uninstall command, install path,
source) and match fields (winget_id, winget_status), and with install_status
and install_error reset to the empty string: the result is exactly the input
mapped through resetInstall, which rewrites only the two install fields, and
the error component of the import is empty. -/
theorem claim_C1_export_import_roundtrip (apps : List AppRecord) (now : String)
    (hne : apps ≠ []) :
    import_template (.doc (export_template apps now)) = (apps.map resetInstall, "") := by
  simp [import_template, export_template, buildEntries_map_to_dict]

/-- Witness for C1 at a concrete one-entry store with populated install state. -/
theorem claim_C1_witness :
    ([({ name := "Foo", publisher := "Pub", version := "1", uninstall_string := "u",
         install_location := "p", source := "HKLM x64", winget_id := "V.F",
         winget_status := "found", install_status := "failed",
         install_error := "boom" } : AppRecord)] ≠ ([] : List AppRecord)) ∧
    import_template (.doc (export_template
      [{ name := "Foo", publisher := "Pub", version := "1", uninstall_string := "u",
         install_location := "p", source := "HKLM x64", winget_id := "V.F",
         winget_status := "found", install_status := "failed",
         install_error := "boom" }] "2024-01-01T00:00:00")) =
      ([{ name := "Foo", publisher := "Pub", version := "1", uninstall_string := "u",
          install_location := "p", source := "HKLM x64", winget_id := "V.F",
          winget_status := "found", install_status := "", install_error := "" }], "") := by
  refine ⟨by decide, ?_⟩
  rw [claim_C1_export_import_roundtrip _ _ (by decide)]
  decide

/-- C8.  On every input whose parsing fails (an unreadable file, invalid JSON
text or a non-object top level, all carried by the ioError constructor with
the raised exception text, which for these exception classes is never empty,
or an entry object without the required name key), import_template returns
exactly the empty entry list paired with a non-empty error message; on every
successfully parsed input the error component is empty.  The embedded
function is pure, so a failing import leaves every caller value untouched:
the empty list it returns is fresh and nothing else is produced. -/
theorem claim_C8_import_failure_contract (src : ImportSource)
    (hmsg : ∀ m, src = .ioError m → m ≠ "") :
    (parseFails src = true →
      (import_template src).1 = [] ∧ (import_template src).2 ≠ "") ∧
    (parseFails src = false → (import_template src).2 = "") := by
  rcases src with msg | d
  · exact ⟨fun _ => ⟨rfl, hmsg msg rfl⟩, fun h => by simp [parseFails] at h⟩
  · constructor
    · intro hfail
      have h1 : (buildEntries d.apps).isSome = false := by
        rw [buildEntries_isSome]
        simp [parseFails] at hfail
        simp [hfail]
      rcases hb : buildEntries d.apps with _ | as
      · exact ⟨by simp [import_template, hb], by simp [import_template, hb, missingNameMsg]⟩
      · rw [hb] at h1; cases h1
    · intro hok
      have h1 : (buildEntries d.apps).isSome = true := by
        rw [buildEntries_isSome]
        simpa [parseFails] using hok
      rcases hb : buildEntries d.apps with _ | as
      · rw [hb] at h1; cases h1
      · simp [import_template, hb]

/-- Witness for C8 at a concrete failing source. -/
theorem claim_C8_witness :
    parseFails (.ioError "No such file or directory") = true ∧
    (import_template (.ioError "No such file or directory")).1 = [] ∧
    (import_template (.ioError "No such file or directory")).2 ≠ "" := by
  refine ⟨by decide, ?_⟩
  exact (claim_C8_import_failure_contract (.ioError "No such file or directory")
    (by intro m hm; cases hm; decide)).1 (by decide)

/-- C10 counterexample.  The claim says every omitted field other than name
defaults to its empty default value, but an imported entry object carrying
only the name key comes back with winget_status equal to unknown, the
dataclass default, which is not the empty string. -/
theorem claim_C10_cex :
    ((import_template (.doc ⟨"1.0.0", "t", [[("name", "Foo")]]⟩)).1.map
        (fun a => a.winget_status)) = ["unknown"] ∧
    ("unknown" : String) ≠ "" := by decide

/-- C10 as amended.  Per-entry keys that do not name an AppRecord field are
silently ignored (the parse depends only on the lookups of the ten field
names), an omitted field defaults to its declared dataclass default - the
empty string for every field except winget_status, whose default is the
text unknown - and an entry object lacking the name key fails the whole
import, which then returns the empty list with a non-empty error. -/
theorem claim_C10_from_dict_contract (d : List (String × String)) :
    (∀ d2 : List (String × String),
       (∀ k ∈ appRecordFields, dictLookup d2 k = dictLookup d k) →
       AppRecord.from_dict d2 = AppRecord.from_dict d) ∧
    (dictLookup d "name" = none → AppRecord.from_dict d = none) ∧
    (∀ nm, dictLookup d "name" = some nm →
       AppRecord.from_dict d = some {
         name := nm,
         publisher := (dictLookup d "publisher").getD "",
         version := (dictLookup d "version").getD "",
         uninstall_string := (dictLookup d "uninstall_string").getD "",
         install_location := (dictLookup d "install_location").getD "",
         source := (dictLookup d "source").getD "",
         winget_id := (dictLookup d "winget_id").getD "",
         winget_status := (dictLookup d "winget_status").getD "unknown",
         install_status := (dictLookup d "install_status").getD "",
         install_error := (dictLookup d "install_error").getD "" }) ∧
    (∀ doc : TemplateDoc, d ∈ doc.apps → dictLookup d "name" = none →
       import_template (.doc doc) = ([], missingNameMsg) ∧ missingNameMsg ≠ "") := by
  refine ⟨?_, ?_, ?_, ?_⟩
  · intro d2 h
    unfold AppRecord.from_dict
    rw [h "name" (by decide), h "publisher" (by decide), h "version" (by decide),
        h "uninstall_string" (by decide), h "install_location" (by decide),
        h "source" (by decide), h "winget_id" (by decide),
        h "winget_status" (by decide), h "install_status" (by decide),
        h "install_error" (by decide)]
  · intro h
    unfold AppRecord.from_dict
    rw [h]
  · intro nm h
    unfold AppRecord.from_dict
    rw [h]
  · intro doc hm hn
    have hb := buildEntries_none_of_mem d hn doc.apps hm
    exact ⟨by simp [import_template, hb], by decide⟩

/-- Witness for C10 at a concrete entry dictionary with an ignored key. -/
theorem claim_C10_witness :
    dictLookup [("name", "Foo"), ("junk", "x")] "name" = some "Foo" ∧
    AppRecord.from_dict [("name", "Foo"), ("junk", "x")] = some { name := "Foo" } := by
  refine ⟨by decide, ?_⟩
  rw [(claim_C10_from_dict_contract [("name", "Foo"), ("junk", "x")]).2.2.1 "Foo" (by decide)]
  decide

-- ──────────────────────────────────────────────────────────────────
-- Builtin filter (C5)
-- ──────────────────────────────────────────────────────────────────

/-- C5 counterexample.  The claim says allow-listed vendor apps are never
excluded despite the vendor-publisher match, but an allow-listed name that
also matches a builtin name pattern is excluded: the name below contains
the allow-list text microsoft teams and is published by Microsoft
Corporation, yet the windows sdk name pattern excludes it. -/
theorem claim_C5_cex :
    EXCLUDE_PUBLISHERS.contains (pyLower "Microsoft Corporation") = true ∧
    allowedMs.any (fun a => strContains (pyLower "Microsoft Teams Windows SDK") a) = true ∧
    is_builtin "Microsoft Teams Windows SDK" "Microsoft Corporation" = true := by decide

/-- C5 as amended.  A vendor-published entry whose name misses the allow
list is excluded; a vendor-published allow-listed entry is kept unless its
name independently matches a builtin name pattern (the allow list only
disarms the vendor-publisher rule, not the name-pattern stage); publisher
Microsoft Corporation with name Microsoft Teams is kept, and any entry
named Microsoft Visual C++ 2015 Redistributable is excluded whatever its
publisher. -/
theorem claim_C5_builtin_filter (name publisher : String) :
    (EXCLUDE_PUBLISHERS.contains (pyLower publisher) = true →
      allowedMs.any (fun a => strContains (pyLower name) a) = false →
      is_builtin name publisher = true) ∧
    (EXCLUDE_PUBLISHERS.contains (pyLower publisher) = true →
      allowedMs.any (fun a => strContains (pyLower name) a) = true →
      matchesBuiltinPattern (pyLower name) = false →
      is_builtin name publisher = false) ∧
    is_builtin "Microsoft Teams" "Microsoft Corporation" = false ∧
    is_builtin "Microsoft Visual C++ 2015 Redistributable" publisher = true := by
  refine ⟨?_, ?_, by decide, ?_⟩
  · intro hpub hallow
    simp [is_builtin, hallow]
    exact Or.inr (by simpa using hpub)
  · intro hpub hallow hpat
    simp [is_builtin, hallow, hpat]
  · have hpat : matchesBuiltinPattern (pyLower "Microsoft Visual C++ 2015 Redistributable") = true := by
      decide
    simp [is_builtin, hpat]

/-- Witness for C5: a vendor-published entry outside the allow list is
excluded, an allow-listed one with a pattern-free name is kept. -/
theorem claim_C5_witness :
    EXCLUDE_PUBLISHERS.contains (pyLower "Windows") = true ∧
    allowedMs.any (fun a => strContains (pyLower "CoolTool") a) = false ∧
    is_builtin "CoolTool" "Windows" = true ∧
    is_builtin "OneDrive" "Microsoft Corporation" = false := by
  refine ⟨by decide, by decide, ?_, ?_⟩
  · exact (claim_C5_builtin_filter "CoolTool" "Windows").1 (by decide) (by decide)
  · exact (claim_C5_builtin_filter "OneDrive" "Microsoft Corporation").2.1
      (by decide) (by decide) (by decide)

-- ──────────────────────────────────────────────────────────────────
-- Install error extraction (C6)
-- ──────────────────────────────────────────────────────────────────

/-- C6 counterexample.  The claim says the extracted message is the matching
output line truncated to 120 characters, but the code also strips the line
of surrounding whitespace: on a keyword line with surrounding blanks the two
differ. -/
theorem claim_C6_cex :
    extract_winget_error "  error: foo  " = "error: foo" ∧
    claimExtract "  error: foo  " = "  error: foo  " ∧
    ("error: foo" : String) ≠ "  error: foo  " := by decide

/-- C6 as amended.  The extracted message is the first output line containing
a failure keyword (error, failed, no package, not found, or the hexadecimal
marker 0x, case-insensitively), stripped of surrounding whitespace and
truncated to 120 characters; when no line matches it is the last line of the
whitespace-stripped output truncated to 120 characters, and the fixed text
Unknown error when the output is entirely whitespace. -/
theorem claim_C6_extract_contract (output : String) :
    (∀ pre line post, pySplitLines output = pre ++ line :: post →
       (∀ l ∈ pre, kwMatch l = false) → kwMatch line = true →
       extract_winget_error output = pyTake (pyStrip line) 120) ∧
    ((∀ l ∈ pySplitLines output, kwMatch l = false) → pyStrip output ≠ "" →
       extract_winget_error output = pyTake ((pySplitLines (pyStrip output)).getLastD "") 120) ∧
    ((∀ l ∈ pySplitLines output, kwMatch l = false) → pyStrip output = "" →
       extract_winget_error output = "Unknown error") := by
  refine ⟨?_, ?_, ?_⟩
  · intro pre line post hdec hpre hline
    have hfind : (pySplitLines output).find? kwMatch = some line := by
      rw [List.find?_eq_some]
      exact ⟨hline, pre, post, hdec, fun a ha => by simp [hpre a ha]⟩
    unfold extract_winget_error
    rw [hfind]
  · intro hnone hs
    have hfind : (pySplitLines output).find? kwMatch = none :=
      List.find?_eq_none.mpr (fun x hx => by simp [hnone x hx])
    unfold extract_winget_error
    rw [hfind]
    simp [hs]
  · intro hnone hs
    have hfind : (pySplitLines output).find? kwMatch = none :=
      List.find?_eq_none.mpr (fun x hx => by simp [hnone x hx])
    unfold extract_winget_error
    rw [hfind]
    simp [hs]

/-- Witness for C6 at a concrete output whose second line carries keywords. -/
theorem claim_C6_witness :
    pySplitLines "ok line\nERROR: code 0x80 hit\ntail" =
      ["ok line", "ERROR: code 0x80 hit", "tail"] ∧
    kwMatch "ERROR: code 0x80 hit" = true ∧
    extract_winget_error "ok line\nERROR: code 0x80 hit\ntail" = "ERROR: code 0x80 hit" := by
  refine ⟨by decide, by decide, ?_⟩
  rw [(claim_C6_extract_contract "ok line\nERROR: code 0x80 hit\ntail").1
      ["ok line"] "ERROR: code 0x80 hit" ["tail"] (by decide)
      (by intro l hl; simp at hl; subst hl; decide) (by decide)]
  decide

-- ──────────────────────────────────────────────────────────────────
-- Script export purity (C3)
-- ──────────────────────────────────────────────────────────────────

/-- C3.  Script generation is a pure function of its input: run twice in a
row on the same entries with no state change between the calls (the clock
text is part of the world and the first call does not advance it), the
second call returns the same (winget_count, manual_count) pair and writes
byte-identical script text, both texts being the deterministic ps1Text of
the entries and the clock; and the only effect on the world is the write to
the target file - every other path reads back exactly as before. -/
theorem claim_C3_export_ps1_pure (apps : List AppRecord) (fp : String) (w : World) :
    (export_ps1 apps fp ((export_ps1 apps fp w).2)).1 = (export_ps1 apps fp w).1 ∧
    readFile (export_ps1 apps fp w).2 fp = some (ps1Text apps w.clockText) ∧
    readFile (export_ps1 apps fp ((export_ps1 apps fp w).2)).2 fp =
      some (ps1Text apps w.clockText) ∧
    (∀ p, p ≠ fp →
      readFile (export_ps1 apps fp ((export_ps1 apps fp w).2)).2 p = readFile w p) := by
  refine ⟨rfl, ?_, ?_, ?_⟩
  · simp [export_ps1, writeFile, readFile, List.find?]
  · simp [export_ps1, writeFile, readFile, List.find?]
  · intro p hp
    have hne : (fp == p) = false := by
      simp only [beq_eq_false_iff_ne]
      exact fun h => hp h.symm
    simp [export_ps1, writeFile, readFile, List.find?, hne]

/-- Witness for C3 at a concrete store, world and unrelated path. -/
theorem claim_C3_witness :
    ("other.txt" : String) ≠ "install.ps1" ∧
    readFile (export_ps1 [{ name := "A", winget_id := "X.Y" }] "install.ps1"
      ((export_ps1 [{ name := "A", winget_id := "X.Y" }] "install.ps1"
        ⟨"2024-01-01 00:00", []⟩).2)).2 "other.txt" = none := by
  refine ⟨by decide, ?_⟩
  rw [(claim_C3_export_ps1_pure [{ name := "A", winget_id := "X.Y" }] "install.ps1"
      ⟨"2024-01-01 00:00", []⟩).2.2.2 "other.txt" (by decide)]
  decide

-- ──────────────────────────────────────────────────────────────────
-- Matcher parsing (C2)
-- ──────────────────────────────────────────────────────────────────

/-- Whatever the inner scan returns has the candidate token shape. -/
theorem innerScan_cand (nw : List String) :
    ∀ (parts : List String) (pre : List String) (cand : String × Nat),
      innerScan nw pre parts = some cand → isCandidateTok cand.1 = true := by
  intro parts
  induction parts with
  | nil => intro pre cand h; cases h
  | cons p rest ih =>
    intro pre cand h
    unfold innerScan at h
    by_cases hp : isCandidateTok p = true
    · rw [if_pos hp] at h
      cases h
      exact hp
    · rw [if_neg hp] at h
      exact ih (pre ++ [p]) cand h

/-- A candidate token is longer than three characters, hence not empty. -/
theorem candidate_ne_empty (c : String) (h : isCandidateTok c = true) : c ≠ "" := by
  intro heq
  rw [heq] at h
  exact absurd h (by decide)

/-- Every surveyed candidate has a non-empty identifier. -/
theorem codeCandidates_ne (output name : String) :
    ∀ c ∈ codeCandidates output name, c.1 ≠ "" := by
  intro c hc
  unfold codeCandidates at hc
  rcases List.mem_filterMap.mp hc with ⟨line, _, hline⟩
  unfold lineCandidate at hline
  by_cases h2 : (pySplit line).length < 2
  · rw [if_pos h2] at hline; cases hline
  · rw [if_neg h2] at hline
    exact candidate_ne_empty c.1 (innerScan_cand _ _ _ _ hline)

/-- The line loop is the candidate fold over the surveyed candidates. -/
theorem foldl_parseLineStep (nw : List String) :
    ∀ (lines : List String) (acc : String × Nat),
      lines.foldl (parseLineStep nw) acc =
        (lines.filterMap (lineCandidate nw)).foldl updateBest acc := by
  intro lines
  induction lines with
  | nil => intro acc; rfl
  | cons l rest ih =>
    intro acc
    rcases h : lineCandidate nw l with _ | c <;>
      simp [parseLineStep, h, ih]

/-- From a non-empty best the update keeps it unless strictly beaten. -/
theorem updateBest_nonempty (b : String) (s : Nat) (c : String × Nat) (hb : b ≠ "") :
    updateBest (b, s) c = if c.2 > s then c else (b, s) := by
  have hb2 : (b == "") = false := by simpa using hb
  by_cases h : c.2 > s
  · simp [updateBest, h]
  · simp [updateBest, h, hb2]

/-- The very first candidate always replaces the empty initial best. -/
theorem updateBest_init (c : String × Nat) : updateBest ("", 0) c = c := by
  rcases Nat.eq_zero_or_pos c.2 with h | h <;> simp [updateBest, h]

/-- A pick over the empty candidate list only: no candidates means none. -/
theorem pickBest_eq_none (cs : List (String × Nat)) (h : pickBest cs = none) : cs = [] := by
  cases cs with
  | nil => rfl
  | cons c rest =>
    unfold pickBest at h
    rcases hrest : pickBest rest with _ | e <;> rw [hrest] at h
    · simp at h
    · by_cases hc : e.2 > c.2 <;> simp [hc] at h

/-- Without candidates the fold keeps its start. -/
theorem foldl_updateBest_none (cs : List (String × Nat)) (b : String) (s : Nat)
    (h : pickBest cs = none) : cs.foldl updateBest (b, s) = (b, s) := by
  rw [pickBest_eq_none cs h]
  rfl

/-- A fold of updates from a non-empty best computes the first-on-tie best:
the first candidate reaching the maximal score, kept only when it strictly
beats the incoming score. -/
theorem foldl_updateBest_some :
    ∀ (cs : List (String × Nat)) (b : String) (s : Nat) (d : String × Nat),
      (∀ c ∈ cs, c.1 ≠ "") → b ≠ "" → pickBest cs = some d →
      cs.foldl updateBest (b, s) = if d.2 > s then d else (b, s) := by
  intro cs
  induction cs with
  | nil => intro b s d _ _ hp; cases hp
  | cons c rest ih =>
    intro b s d hne hb hp
    obtain ⟨c1, c2⟩ := c
    have hc1 : c1 ≠ "" := hne (c1, c2) (List.mem_cons_self _ rest)
    have hnr : ∀ x ∈ rest, x.1 ≠ "" := fun x hx => hne x (List.mem_cons_of_mem _ hx)
    rw [List.foldl_cons, updateBest_nonempty b s (c1, c2) hb]
    dsimp only
    rcases hrest : pickBest rest with _ | e
    · have hcons : pickBest ((c1, c2) :: rest) = some (c1, c2) := by
        unfold pickBest
        rw [hrest]
      rw [hp] at hcons
      injection hcons with hdc
      subst hdc
      dsimp only
      rw [pickBest_eq_none rest hrest]
      rfl
    · have hcons : pickBest ((c1, c2) :: rest) =
          if e.2 > c2 then some e else some (c1, c2) := by
        unfold pickBest
        rw [hrest]
      rw [hp] at hcons
      by_cases he : e.2 > c2
      · rw [if_pos he] at hcons
        injection hcons with hde
        subst hde
        by_cases hcs : c2 > s
        · rw [if_pos hcs, ih c1 c2 d hnr hc1 hrest, if_pos he, if_pos (by omega : d.2 > s)]
        · rw [if_neg hcs, ih b s d hnr hb hrest]
      · rw [if_neg he] at hcons
        injection hcons with hdc
        subst hdc
        dsimp only
        by_cases hcs : c2 > s
        · rw [if_pos hcs, ih c1 c2 e hnr hc1 hrest, if_neg he]
        · rw [if_neg hcs, ih b s e hnr hb hrest, if_neg (by omega : ¬ e.2 > s)]

/-- C2 as amended.  The matcher does not survey every candidate token: it
takes only the first candidate token of each row that splits into at least
two tokens (the inner loop breaks at the first hit and short rows are
skipped).  Over that surveyed candidate list the code keeps exactly the
highest-scoring candidate, the first one found on a tie, and returns the
empty identifier (NotFound) exactly when the surveyed list is empty. -/
theorem claim_C2_parse_best (output name : String) :
    parse_winget_id output name = codeBest output name := by
  show ((pySplitLines (pyStrip output)).foldl
      (parseLineStep (pySplit (pyLower name))) ("", 0)).1 = codeBest output name
  rw [foldl_parseLineStep]
  have hC : codeCandidates output name =
      (pySplitLines (pyStrip output)).filterMap (lineCandidate (pySplit (pyLower name))) := rfl
  rw [← hC]
  rcases hcs : codeCandidates output name with _ | ⟨c, cs⟩
  · unfold codeBest
    rw [hcs]
    rfl
  · have hne : ∀ x ∈ c :: cs, x.1 ≠ "" := by
      rw [← hcs]
      exact codeCandidates_ne output name
    obtain ⟨c1, c2⟩ := c
    have hb : c1 ≠ "" := hne (c1, c2) (List.mem_cons_self _ cs)
    have hnr : ∀ x ∈ cs, x.1 ≠ "" := fun x hx => hne x (List.mem_cons_of_mem _ hx)
    rw [List.foldl_cons, updateBest_init]
    unfold codeBest
    rw [hcs]
    rcases hp : pickBest cs with _ | e
    · rw [foldl_updateBest_none cs c1 c2 hp]
      have hcons : pickBest ((c1, c2) :: cs) = some (c1, c2) := by
        unfold pickBest
        rw [hp]
      rw [hcons]
    · rw [foldl_updateBest_some cs c1 c2 e hnr hb hp]
      have hcons : pickBest ((c1, c2) :: cs) =
          if e.2 > c2 then some e else some (c1, c2) := by
        unfold pickBest
        rw [hp]
      rw [hcons]
      by_cases he : e.2 > c2
      · rw [if_pos he, if_pos he]
      · rw [if_neg he, if_neg he]

/-- C2 counterexample.  On the row below the only surveyed candidate is the
first dotted token A.B12 (score 0), because the inner loop breaks there;
the claim instead elects Foo.Bar, whose preceding row text contains both
query words (score 2).  The code keeps A.B12, the claim says Foo.Bar. -/
theorem claim_C2_cex :
    parse_winget_id "x A.B12 foo bar Foo.Bar" "foo bar" = "A.B12" ∧
    claimBest "x A.B12 foo bar Foo.Bar" "foo bar" = "Foo.Bar" ∧
    ("A.B12" : String) ≠ "Foo.Bar" := by decide

-- ──────────────────────────────────────────────────────────────────
-- Scanner dedup and sort (C4)
-- ──────────────────────────────────────────────────────────────────

/-- Boolean membership agrees with membership on the seen set. -/
theorem contains_mem (l : List String) (k : String) : l.contains k = true ↔ k ∈ l := by
  simp

/-- The key order is total. -/
theorem lexLe_total : ∀ xs ys : List Char, lexLe xs ys = true ∨ lexLe ys xs = true := by
  intro xs
  induction xs with
  | nil => intro ys; left; rfl
  | cons a as ih =>
    intro ys
    cases ys with
    | nil => right; rfl
    | cons b bs =>
      unfold lexLe
      by_cases h : a.toNat = b.toNat
      · rw [if_pos h, if_pos h.symm]
        exact ih bs
      · rw [if_neg h, if_neg (fun h2 => h h2.symm)]
        rcases Nat.lt_or_ge a.toNat b.toNat with hlt | hge
        · left; exact decide_eq_true hlt
        · right; exact decide_eq_true (by omega)

/-- The key order is transitive. -/
theorem lexLe_trans : ∀ xs ys zs : List Char,
    lexLe xs ys = true → lexLe ys zs = true → lexLe xs zs = true := by
  intro xs
  induction xs with
  | nil => intro ys zs _ _; rfl
  | cons a as ih =>
    intro ys zs h1 h2
    cases ys with
    | nil => simp [lexLe] at h1
    | cons b bs =>
      cases zs with
      | nil => simp [lexLe] at h2
      | cons c cs =>
        unfold lexLe at h1 h2 ⊢
        by_cases hab : a.toNat = b.toNat
        · rw [if_pos hab] at h1
          by_cases hbc : b.toNat = c.toNat
          · rw [if_pos hbc] at h2
            rw [if_pos (hab.trans hbc)]
            exact ih bs cs h1 h2
          · rw [if_neg hbc] at h2
            have hlt : b.toNat < c.toNat := of_decide_eq_true h2
            rw [if_neg (by omega : ¬ a.toNat = c.toNat)]
            exact decide_eq_true (by omega)
        · rw [if_neg hab] at h1
          have hlt1 : a.toNat < b.toNat := of_decide_eq_true h1
          by_cases hbc : b.toNat = c.toNat
          · rw [if_neg (by omega : ¬ a.toNat = c.toNat)]
            exact decide_eq_true (by omega)
          · rw [if_neg hbc] at h2
            have hlt2 : b.toNat < c.toNat := of_decide_eq_true h2
            rw [if_neg (by omega : ¬ a.toNat = c.toNat)]
            exact decide_eq_true (by omega)

/-- Totality of the record comparison. -/
theorem scanLe_total (a b : AppRecord) : scanLe a b = true ∨ scanLe b a = true :=
  lexLe_total _ _

/-- Transitivity of the record comparison. -/
theorem scanLe_trans (a b c : AppRecord) :
    scanLe a b = true → scanLe b c = true → scanLe a c = true :=
  lexLe_trans _ _ _

/-- Stable insertion permutes. -/
theorem pyInsertSorted_perm (le : α → α → Bool) (x : α) :
    ∀ l, (pyInsertSorted le x l).Perm (x :: l) := by
  intro l
  induction l with
  | nil => exact List.Perm.refl _
  | cons b t ih =>
    unfold pyInsertSorted
    by_cases h : le x b = true
    · rw [if_pos h]
    · rw [if_neg h]
      exact (ih.cons b).trans (List.Perm.swap x b t)

/-- The sort permutes its input. -/
theorem pySorted_perm (le : α → α → Bool) : ∀ l, (pySorted le l).Perm l := by
  intro l
  induction l with
  | nil => exact List.Perm.nil
  | cons x t ih =>
    exact (pyInsertSorted_perm le x (pySorted le t)).trans (ih.cons x)

/-- Insertion into a sorted list stays sorted for a total transitive order. -/
theorem pairwise_pyInsertSorted (le : α → α → Bool)
    (htot : ∀ a b, le a b = true ∨ le b a = true)
    (htr : ∀ a b c, le a b = true → le b c = true → le a c = true) (x : α) :
    ∀ l, l.Pairwise (fun a b => le a b = true) →
      (pyInsertSorted le x l).Pairwise (fun a b => le a b = true) := by
  intro l
  induction l with
  | nil => intro _; simp [pyInsertSorted]
  | cons b t ih =>
    intro hp
    obtain ⟨hb, ht⟩ := List.pairwise_cons.mp hp
    unfold pyInsertSorted
    by_cases h : le x b = true
    · rw [if_pos h]
      refine List.Pairwise.cons ?_ hp
      intro y hy
      rcases List.mem_cons.mp hy with heq | hmem
      · subst heq; exact h
      · exact htr x b y h (hb y hmem)
    · rw [if_neg h]
      have hbx : le b x = true := by
        rcases htot x b with h1 | h1
        · exact absurd h1 h
        · exact h1
      refine List.Pairwise.cons ?_ (ih ht)
      intro y hy
      have hy2 := (pyInsertSorted_perm le x t).mem_iff.mp hy
      rcases List.mem_cons.mp hy2 with heq | hmem
      · subst heq; exact hbx
      · exact hb y hmem

/-- The sort output is pairwise ordered. -/
theorem pairwise_pySorted (le : α → α → Bool)
    (htot : ∀ a b, le a b = true ∨ le b a = true)
    (htr : ∀ a b c, le a b = true → le b c = true → le a c = true) :
    ∀ l : List α, (pySorted le l).Pairwise (fun a b => le a b = true) := by
  intro l
  induction l with
  | nil => exact List.Pairwise.nil
  | cons x t ih => exact pairwise_pyInsertSorted le htot htr x (pySorted le t) ih

/-- Everything the dedup emits is outside the seen set and is the first
occurrence of its key in the remaining input. -/
theorem dedupFirst_mem_find :
    ∀ (l : List AppRecord) (seen : List String) (a : AppRecord),
      a ∈ dedupFirst l seen →
      scanKey a ∉ seen ∧ l.find? (fun b => scanKey b == scanKey a) = some a := by
  intro l
  induction l with
  | nil => intro seen a h; cases h
  | cons x rest ih =>
    intro seen a h
    unfold dedupFirst at h
    by_cases hx : seen.contains (scanKey x) = true
    · rw [if_pos hx] at h
      obtain ⟨hnot, hfind⟩ := ih seen a h
      have hne : (scanKey x == scanKey a) = false := by
        rw [beq_eq_false_iff_ne]
        intro heq
        exact hnot (heq ▸ (contains_mem seen (scanKey x)).mp hx)
      exact ⟨hnot, by rw [List.find?_cons_of_neg rest (by simp [hne]), hfind]⟩
    · rw [if_neg hx] at h
      rcases List.mem_cons.mp h with heq | hmem
      · subst heq
        refine ⟨fun hm => hx ((contains_mem seen (scanKey a)).mpr hm), ?_⟩
        exact List.find?_cons_of_pos rest (by simp)
      · obtain ⟨hnot, hfind⟩ := ih (scanKey x :: seen) a hmem
        have hne : scanKey a ≠ scanKey x :=
          fun heq => hnot (heq ▸ List.mem_cons_self _ _)
        refine ⟨fun hseen => hnot (List.mem_cons_of_mem _ hseen), ?_⟩
        have hne2 : (scanKey x == scanKey a) = false := by
          rw [beq_eq_false_iff_ne]
          exact fun h2 => hne h2.symm
        rw [List.find?_cons_of_neg rest (by simp [hne2]), hfind]

/-- Every input key outside the seen set is represented in the dedup output. -/
theorem dedupFirst_covers :
    ∀ (l : List AppRecord) (seen : List String) (b : AppRecord),
      b ∈ l → scanKey b ∉ seen → ∃ a ∈ dedupFirst l seen, scanKey a = scanKey b := by
  intro l
  induction l with
  | nil => intro seen b h; cases h
  | cons x rest ih =>
    intro seen b hb hnot
    unfold dedupFirst
    by_cases hx : seen.contains (scanKey x) = true
    · rw [if_pos hx]
      rcases List.mem_cons.mp hb with heq | hmem
      · subst heq
        exact absurd ((contains_mem seen (scanKey b)).mp hx) hnot
      · exact ih seen b hmem hnot
    · rw [if_neg hx]
      rcases List.mem_cons.mp hb with heq | hmem
      · subst heq
        exact ⟨b, List.mem_cons_self _ _, rfl⟩
      · by_cases hkey : scanKey b = scanKey x
        · exact ⟨x, List.mem_cons_self _ _, hkey.symm⟩
        · obtain ⟨a, ha, hk⟩ := ih (scanKey x :: seen) b hmem (by
            intro hm
            rcases List.mem_cons.mp hm with h1 | h2
            · exact hkey h1
            · exact hnot h2)
          exact ⟨a, List.mem_cons_of_mem _ ha, hk⟩

/-- The dedup output has pairwise distinct keys. -/
theorem dedupFirst_pairwise :
    ∀ (l : List AppRecord) (seen : List String),
      (dedupFirst l seen).Pairwise (fun a b => scanKey a ≠ scanKey b) := by
  intro l
  induction l with
  | nil => intro seen; exact List.Pairwise.nil
  | cons x rest ih =>
    intro seen
    unfold dedupFirst
    by_cases hx : seen.contains (scanKey x) = true
    · rw [if_pos hx]; exact ih seen
    · rw [if_neg hx]
      refine List.Pairwise.cons ?_ (ih _)
      intro a ha heq
      exact (dedupFirst_mem_find rest (scanKey x :: seen) a ha).1
        (heq ▸ List.mem_cons_self _ _)

/-- C4.  The scan result has case-insensitively unique names; the record it
keeps for each lowered name is the first occurrence of that name in the
concatenation HKLM 64-bit, HKLM 32-bit, HKCU (first occurrence wins); every
gathered record is represented by its lowered name; and the result is
pairwise sorted ascending by lowered name. -/
theorem claim_C4_scan_contract (h64 h32 hcu : List AppRecord) :
    ((scan_installed_apps h64 h32 hcu).Pairwise (fun a b => scanKey a ≠ scanKey b)) ∧
    (∀ a ∈ scan_installed_apps h64 h32 hcu,
       (h64 ++ h32 ++ hcu).find? (fun b => scanKey b == scanKey a) = some a) ∧
    (∀ b ∈ h64 ++ h32 ++ hcu,
       ∃ a ∈ scan_installed_apps h64 h32 hcu, scanKey a = scanKey b) ∧
    ((scan_installed_apps h64 h32 hcu).Pairwise (fun a b => scanLe a b = true)) := by
  have hperm : (scan_installed_apps h64 h32 hcu).Perm
      (dedupFirst (h64 ++ h32 ++ hcu) []) :=
    pySorted_perm scanLe (dedupFirst (h64 ++ h32 ++ hcu) [])
  refine ⟨?_, ?_, ?_, ?_⟩
  · exact (dedupFirst_pairwise (h64 ++ h32 ++ hcu) []).perm hperm.symm
      (fun h => h.symm)
  · intro a ha
    exact (dedupFirst_mem_find (h64 ++ h32 ++ hcu) [] a (hperm.mem_iff.mp ha)).2
  · intro b hb
    obtain ⟨a, ha, hk⟩ :=
      dedupFirst_covers (h64 ++ h32 ++ hcu) [] b hb (List.not_mem_nil _)
    exact ⟨a, hperm.mem_iff.mpr ha, hk⟩
  · exact pairwise_pySorted scanLe scanLe_total scanLe_trans _

/-- Witness for C4: with a duplicate of alpha under another case in the
user hive, the kept record is the machine-wide first occurrence. -/
theorem claim_C4_witness :
    (({ name := "alpha" } : AppRecord) ∈
      scan_installed_apps [{ name := "Beta" }] [{ name := "alpha" }] [{ name := "ALPHA" }]) ∧
    (([{ name := "Beta" }] ++ [{ name := "alpha" }] ++ [{ name := "ALPHA" }] :
        List AppRecord).find?
      (fun b => scanKey b == scanKey { name := "alpha" }) = some { name := "alpha" }) := by
  refine ⟨by decide, ?_⟩
  exact (claim_C4_scan_contract [{ name := "Beta" }] [{ name := "alpha" }]
    [{ name := "ALPHA" }]).2.1 _ (by decide)

-- ──────────────────────────────────────────────────────────────────
-- Install worker and matcher worker (C7, C9)
-- ──────────────────────────────────────────────────────────────────

/-- An unmatched entry short-circuits to the fixed manual event pair. -/
theorem installItemEvents_manual_eq (app : AppRecord) (idx : Nat)
    (o : InstallOutcome) (t1 t2 : String)
    (h : app.winget_status ≠ "found" ∨ app.winget_id = "") :
    installItemEvents app idx o t1 t2 =
      [.app_started idx app.name,
       .app_finished idx "manual" "No Winget package available"] := by
  unfold installItemEvents
  rw [if_pos h]

/-- For an unmatched entry the item events ignore the invocation outcome. -/
theorem installItemEvents_manual_indep (app : AppRecord) (idx : Nat)
    (o1 o2 : InstallOutcome) (t1 t2 : String)
    (h : app.winget_status ≠ "found" ∨ app.winget_id = "") :
    installItemEvents app idx o1 t1 t2 = installItemEvents app idx o2 t1 t2 := by
  rw [installItemEvents_manual_eq app idx o1 t1 t2 h,
      installItemEvents_manual_eq app idx o2 t1 t2 h]

/-- The loop reaches every item before the first positive stop read and
emits the manual pair adjacently for an unmatched entry there. -/
theorem installGo_manual_subtrace (apps : List AppRecord)
    (installer : Nat → InstallOutcome) (tsA tsB : Nat → String) (stop : Nat → Bool)
    (total : Nat) :
    ∀ (rest : List Nat) (n done m idx : Nat),
      rest[m]? = some idx →
      (∀ j, j ≤ m → stop (n + j) = false) →
      ((apps.getD idx default).winget_status ≠ "found" ∨
        (apps.getD idx default).winget_id = "") →
      ∃ pre post, installGo apps installer tsA tsB stop total rest n done =
        pre ++ IEv.app_started idx (apps.getD idx default).name ::
          IEv.app_finished idx "manual" "No Winget package available" :: post := by
  intro rest
  induction rest with
  | nil => intro n done m idx h _ _; cases h
  | cons i r ih =>
    intro n done m idx hget hstop hman
    have hstopn : stop n = false := by simpa using hstop 0 (Nat.zero_le m)
    unfold installGo
    rw [if_neg (by simp [hstopn])]
    cases m with
    | zero =>
      simp at hget
      subst hget
      rw [installItemEvents_manual_eq _ _ _ _ _ hman]
      exact ⟨[], _, rfl⟩
    | succ m2 =>
      simp at hget
      obtain ⟨pre, post, heq⟩ := ih (n + 1) (done + 1) m2 idx hget
        (fun j hj => by
          have h2 := hstop (j + 1) (by omega)
          rw [show n + 1 + j = n + (j + 1) by omega]
          exact h2) hman
      refine ⟨installItemEvents (apps.getD i default) i (installer i) (tsA n) (tsB n) ++
        IEv.overall_progress (done + 1) total :: pre, post, ?_⟩
      rw [heq]
      simp

/-- When the entry at an index is unmatched, the whole loop trace does not
depend on what the installer would return at that index. -/
theorem installGo_manual_indep (apps : List AppRecord) (idx : Nat)
    (hman : (apps.getD idx default).winget_status ≠ "found" ∨
      (apps.getD idx default).winget_id = "")
    (ins1 ins2 : Nat → InstallOutcome) (hagree : ∀ j, j ≠ idx → ins2 j = ins1 j)
    (tsA tsB : Nat → String) (stop : Nat → Bool) (total : Nat) :
    ∀ (rest : List Nat) (n done : Nat),
      installGo apps ins2 tsA tsB stop total rest n done =
        installGo apps ins1 tsA tsB stop total rest n done := by
  intro rest
  induction rest with
  | nil => intro n done; rfl
  | cons i r ih =>
    intro n done
    unfold installGo
    by_cases hs : stop n = true
    · rw [if_pos hs, if_pos hs]
    · rw [if_neg hs, if_neg hs, ih (n + 1) (done + 1)]
      by_cases hi : i = idx
      · subst hi
        rw [installItemEvents_manual_indep _ _ (ins2 i) (ins1 i) _ _ hman]
      · rw [hagree i hi]

/-- C7.  When the install worker reaches an item whose entry has a match
status other than found or an empty identifier (no earlier stop read is
positive up to it), the trace contains Started(index, name) immediately
followed by Finished(index, manual, the fixed message); and the whole trace
is unchanged under any alternative installer oracle that differs only at
that index - the external installer is never invoked for such an entry, so
an entry finishing Manual was never passed to it. -/
theorem claim_C7_manual_short_circuit (apps : List AppRecord) (indices : List Nat)
    (installer : Nat → InstallOutcome) (tsA tsB : Nat → String) (stop : Nat → Bool)
    (n idx : Nat) (hget : indices[n]? = some idx)
    (hrun : ∀ m, m ≤ n → stop m = false)
    (hman : (apps.getD idx default).winget_status ≠ "found" ∨
      (apps.getD idx default).winget_id = "") :
    (∃ pre post, InstallWorker.run apps indices installer tsA tsB stop =
       pre ++ IEv.app_started idx (apps.getD idx default).name ::
         IEv.app_finished idx "manual" "No Winget package available" :: post) ∧
    (∀ installer2, (∀ j, j ≠ idx → installer2 j = installer j) →
       InstallWorker.run apps indices installer2 tsA tsB stop =
         InstallWorker.run apps indices installer tsA tsB stop) := by
  constructor
  · exact installGo_manual_subtrace apps installer tsA tsB stop indices.length
      indices 0 0 n idx hget (fun j hj => by simpa using hrun j hj) hman
  · intro ins2 hagree
    exact installGo_manual_indep apps idx hman installer ins2 hagree
      tsA tsB stop indices.length indices 0 0

/-- Witness for C7 at a one-entry store whose entry is unmatched. -/
theorem claim_C7_witness :
    ∃ pre post, InstallWorker.run [{ name := "Bar" }] [0] (fun _ => .timedOut)
        (fun _ => "t") (fun _ => "t") (fun _ => false) =
      pre ++ IEv.app_started 0 "Bar" ::
        IEv.app_finished 0 "manual" "No Winget package available" :: post :=
  (claim_C7_manual_short_circuit [{ name := "Bar" }] [0] (fun _ => .timedOut)
    (fun _ => "t") (fun _ => "t") (fun _ => false) 0 0 (by decide)
    (fun _ _ => rfl) (Or.inl (by decide))).1

/-- Started indices distribute over trace concatenation. -/
theorem startedIdxs_append (l1 l2 : List IEv) :
    startedIdxs (l1 ++ l2) = startedIdxs l1 ++ startedIdxs l2 := by
  unfold startedIdxs
  rw [List.filterMap_append]

/-- Each processed item contributes exactly its own Started index. -/
theorem startedIdxs_item (app : AppRecord) (idx : Nat) (o : InstallOutcome)
    (t1 t2 : String) : startedIdxs (installItemEvents app idx o t1 t2) = [idx] := by
  unfold installItemEvents
  by_cases h : app.winget_status ≠ "found" ∨ app.winget_id = ""
  · rw [if_pos h]; rfl
  · rw [if_neg h]
    cases o with
    | completed code out errout =>
      dsimp only
      by_cases hc : code = 0
      · rw [if_pos hc]; rfl
      · rw [if_neg hc]; rfl
    | timedOut => rfl
    | raised msg => rfl

/-- No processed item emits the final signal. -/
theorem doneCount_item (app : AppRecord) (idx : Nat) (o : InstallOutcome)
    (t1 t2 : String) : doneCount (installItemEvents app idx o t1 t2) = 0 := by
  unfold installItemEvents
  by_cases h : app.winget_status ≠ "found" ∨ app.winget_id = ""
  · rw [if_pos h]; rfl
  · rw [if_neg h]
    cases o with
    | completed code out errout =>
      dsimp only
      by_cases hc : code = 0
      · rw [if_pos hc]; rfl
      · rw [if_neg hc]; rfl
    | timedOut => rfl
    | raised msg => rfl

/-- The final signal count distributes over concatenation. -/
theorem doneCount_append (l1 l2 : List IEv) :
    doneCount (l1 ++ l2) = doneCount l1 + doneCount l2 := by
  unfold doneCount
  rw [List.filterMap_append, List.length_append]

/-- The Started indices of a loop run are exactly the indices of the items
processed before the first positive stop read, in order. -/
theorem installGo_startedIdxs (apps : List AppRecord)
    (installer : Nat → InstallOutcome) (tsA tsB : Nat → String) (stop : Nat → Bool)
    (total : Nat) :
    ∀ (rest : List Nat) (n done : Nat),
      startedIdxs (installGo apps installer tsA tsB stop total rest n done) =
        rest.take (stopsAt stop n rest) := by
  intro rest
  induction rest with
  | nil => intro n done; rfl
  | cons i r ih =>
    intro n done
    unfold installGo stopsAt
    by_cases hs : stop n = true
    · rw [if_pos hs, if_pos hs]; rfl
    · rw [if_neg hs, if_neg hs, startedIdxs_append, startedIdxs_item]
      have hcons : startedIdxs (IEv.overall_progress (done + 1) total ::
          installGo apps installer tsA tsB stop total r (n + 1) (done + 1)) =
          startedIdxs (installGo apps installer tsA tsB stop total r (n + 1) (done + 1)) := rfl
      rw [hcons, ih (n + 1) (done + 1)]
      rfl

/-- Every loop run emits the final signal exactly once, stopped or not. -/
theorem installGo_doneCount (apps : List AppRecord)
    (installer : Nat → InstallOutcome) (tsA tsB : Nat → String) (stop : Nat → Bool)
    (total : Nat) :
    ∀ (rest : List Nat) (n done : Nat),
      doneCount (installGo apps installer tsA tsB stop total rest n done) = 1 := by
  intro rest
  induction rest with
  | nil => intro n done; rfl
  | cons i r ih =>
    intro n done
    unfold installGo
    by_cases hs : stop n = true
    · rw [if_pos hs]; rfl
    · rw [if_neg hs, doneCount_append, doneCount_item]
      have hcons : doneCount (IEv.overall_progress (done + 1) total ::
          installGo apps installer tsA tsB stop total r (n + 1) (done + 1)) =
          doneCount (installGo apps installer tsA tsB stop total r (n + 1) (done + 1)) := rfl
      rw [hcons, ih (n + 1) (done + 1)]

/-- The executed iteration count never passes a positive stop read. -/
theorem stopsAt_le (stop : Nat → Bool) :
    ∀ (rest : List Nat) (n m : Nat), stop (n + m) = true → stopsAt stop n rest ≤ m := by
  intro rest
  induction rest with
  | nil => intro n m _; exact Nat.zero_le m
  | cons i r ih =>
    intro n m h
    unfold stopsAt
    by_cases hs : stop n = true
    · rw [if_pos hs]; exact Nat.zero_le m
    · rw [if_neg hs]
      cases m with
      | zero => rw [Nat.add_zero] at h; exact absurd h hs
      | succ m2 =>
        have := ih (n + 1) m2 (by rw [show n + 1 + m2 = n + (m2 + 1) by omega]; exact h)
        omega

/-- The matched indices of a matcher run are exactly the not-yet-found
entries among the items processed before the first positive stop read. -/
theorem matcherGo_matchedIdxs (apps : List AppRecord)
    (search : String → String × String) (stop : Nat → Bool) (total : Nat) :
    ∀ (rest : List Nat) (n : Nat),
      matchedIdxs (matcherGo apps search stop total n rest) =
        (rest.take (stopsAt stop n rest)).filter
          (fun i => !((apps.getD i default).winget_status == "found")) := by
  intro rest
  induction rest with
  | nil => intro n; rfl
  | cons i r ih =>
    intro n
    unfold matcherGo stopsAt
    by_cases hs : stop n = true
    · rw [if_pos hs, if_pos hs]; rfl
    · rw [if_neg hs, if_neg hs]
      by_cases hf : ((apps.getD i default).winget_status == "found") = true
      · rw [if_pos hf]
        have hcons : matchedIdxs (MEv.progress (n + 1) total ::
            matcherGo apps search stop total (n + 1) r) =
            matchedIdxs (matcherGo apps search stop total (n + 1) r) := rfl
        rw [hcons, ih (n + 1), List.take_succ_cons,
            List.filter_cons_of_neg (by
              have hf2 : (apps[i]?.getD default).winget_status = "found" := by
                simpa using hf
              simp [hf2])]
      · rw [if_neg hf]
        have hcons : matchedIdxs (MEv.app_matched i (search (apps.getD i default).name).1
            (search (apps.getD i default).name).2 :: MEv.progress (n + 1) total ::
            matcherGo apps search stop total (n + 1) r) =
            i :: matchedIdxs (matcherGo apps search stop total (n + 1) r) := rfl
        rw [hcons, ih (n + 1), List.take_succ_cons,
            List.filter_cons_of_pos (by
              have hf2 : ¬(apps[i]?.getD default).winget_status = "found" := by
                simpa using hf
              simp [hf2])]

/-- Every matcher run emits its completion signal exactly once. -/
theorem matcherGo_finCount (apps : List AppRecord)
    (search : String → String × String) (stop : Nat → Bool) (total : Nat) :
    ∀ (rest : List Nat) (n : Nat),
      finCount (matcherGo apps search stop total n rest) = 1 := by
  intro rest
  induction rest with
  | nil => intro n; rfl
  | cons i r ih =>
    intro n
    unfold matcherGo
    by_cases hs : stop n = true
    · rw [if_pos hs]; rfl
    · rw [if_neg hs]
      by_cases hf : (apps.getD i default).winget_status == "found"
      · rw [if_pos hf]
        exact ih (n + 1)
      · rw [if_neg hf]
        exact ih (n + 1)

/-- C9.  Once the cooperative flag reads true at iteration k, neither worker
begins any item from that iteration on: the install worker emits Started
events exactly for a prefix of at most k indices, and the matcher emits
match events (hence begins catalog queries) only for the not-yet-found
entries of such a prefix; both still emit their final completion signal
exactly once. -/
theorem claim_C9_cancellation (stop : Nat → Bool) (k : Nat) (hk : stop k = true) :
    (∀ (apps : List AppRecord) (indices : List Nat) (installer : Nat → InstallOutcome)
       (tsA tsB : Nat → String), (∀ i ∈ indices, i < apps.length) →
       ∃ j, j ≤ k ∧
         startedIdxs (InstallWorker.run apps indices installer tsA tsB stop) =
           indices.take j ∧
         doneCount (InstallWorker.run apps indices installer tsA tsB stop) = 1) ∧
    (∀ (apps : List AppRecord) (indices : List Nat) (search : String → String × String),
       (∀ i ∈ indices, i < apps.length) →
       ∃ j, j ≤ k ∧
         matchedIdxs (WingetMatcher.run apps indices search stop) =
           (indices.take j).filter
             (fun i => !((apps.getD i default).winget_status == "found")) ∧
         finCount (WingetMatcher.run apps indices search stop) = 1) := by
  constructor
  · intro apps indices installer tsA tsB _
    exact ⟨stopsAt stop 0 indices,
      stopsAt_le stop indices 0 k (by simpa using hk),
      installGo_startedIdxs apps installer tsA tsB stop indices.length indices 0 0,
      installGo_doneCount apps installer tsA tsB stop indices.length indices 0 0⟩
  · intro apps indices search _
    exact ⟨stopsAt stop 0 indices,
      stopsAt_le stop indices 0 k (by simpa using hk),
      matcherGo_matchedIdxs apps search stop indices.length indices 0,
      matcherGo_finCount apps search stop indices.length indices 0⟩

/-- Witness for C9: the flag set after the first item caps the Started
prefix at one index and the final signal still fires once. -/
theorem claim_C9_witness :
    ∃ j, j ≤ 1 ∧
      startedIdxs (InstallWorker.run [{ name := "A" }, { name := "B" }] [0, 1]
        (fun _ => .timedOut) (fun _ => "t") (fun _ => "t")
        (fun n => decide (n ≥ 1))) = [0, 1].take j ∧
      doneCount (InstallWorker.run [{ name := "A" }, { name := "B" }] [0, 1]
        (fun _ => .timedOut) (fun _ => "t") (fun _ => "t")
        (fun n => decide (n ≥ 1))) = 1 :=
  (claim_C9_cancellation (fun n => decide (n ≥ 1)) 1 (by decide)).1
    [{ name := "A" }, { name := "B" }] [0, 1] (fun _ => .timedOut)
    (fun _ => "t") (fun _ => "t") (by decide)
